import Mathlib

/-!
Shallow embedding of the feature-flag evaluator core
(`src/feature-flag-evaluator/core/src/lib.rs`) and verification of the
specification claims about it.

Modelling conventions:

* Rust `&str` expression text is modelled as `List Char`.  The Rust code scans
  the UTF-8 byte array, but every character it inspects (quotes, parentheses,
  operator tokens, digits, `rollout(`) is ASCII, and in UTF-8 an ASCII byte
  occurs only as a standalone character, so byte positions of matches
  correspond one-to-one to character positions and the per-character scan is
  faithful.  Byte indices of the source are modelled as character indices.
* Rust `f64` is modelled by `Fp`: an exact rational together with the special
  values `+inf`, `-inf` and `nan`, with IEEE-754 comparison behaviour
  (comparisons involving `nan` are false).  Rounding of finite results is not
  modelled: the only `f64` arithmetic the code performs on values that any
  claim touches is the exactly-representable `hash / 2^32` bucket computation
  and order comparisons, which are exact.
* A Rust panic (reachable in `parse_term_as_value` and `eval_in` through the
  string slice `&t[1..t.len()-1]` when `t` is a single quote character, since
  the slice bounds `1..0` are invalid) is modelled as the error value
  `EvalErr.panic`, distinct from the recoverable `Err(())` which is modelled
  as `EvalErr.err`.  `eval_rules` catches only `EvalErr.err`; `EvalErr.panic`
  propagates to the result of `eval_flag`, whose result type
  `Except Unit EvalResult` has `.error ()` meaning "the Rust code panics".
-/

namespace FFE

/-- Model of `f64`: exact rationals plus the IEEE special values.  Finite
values carry the exact rational they denote; rounding is not modelled. -/
inductive Fp where
  | finite (q : ℚ)
  | posInf
  | negInf
  | nan
deriving DecidableEq

/-- IEEE-754 subtraction on modelled doubles (finite arithmetic is exact). -/
def Fp.sub : Fp → Fp → Fp
  | .nan, _ => .nan
  | _, .nan => .nan
  | .finite a, .finite b => .finite (a - b)
  | .finite _, .posInf => .negInf
  | .finite _, .negInf => .posInf
  | .posInf, .finite _ => .posInf
  | .posInf, .posInf => .nan
  | .posInf, .negInf => .posInf
  | .negInf, .finite _ => .negInf
  | .negInf, .posInf => .negInf
  | .negInf, .negInf => .nan

/-- IEEE-754 absolute value. -/
def Fp.abs : Fp → Fp
  | .nan => .nan
  | .posInf => .posInf
  | .negInf => .posInf
  | .finite a => .finite |a|

/-- IEEE-754 `<`: any comparison involving `nan` is false. -/
def Fp.lt : Fp → Fp → Bool
  | .nan, _ => false
  | _, .nan => false
  | .finite a, .finite b => decide (a < b)
  | .finite _, .posInf => true
  | .finite _, .negInf => false
  | .posInf, _ => false
  | .negInf, .finite _ => true
  | .negInf, .posInf => true
  | .negInf, .negInf => false

/-- IEEE-754 `<=`: any comparison involving `nan` is false. -/
def Fp.le : Fp → Fp → Bool
  | .nan, _ => false
  | _, .nan => false
  | .finite a, .finite b => decide (a ≤ b)
  | .finite _, .posInf => true
  | .finite _, .negInf => false
  | .posInf, .posInf => true
  | .posInf, _ => false
  | .negInf, _ => true

/-- `f64::EPSILON` = 2⁻⁵², used by the evaluator's epsilon-tolerant numeric
equality. -/
def f64Epsilon : Fp := .finite ((1 : ℚ) / 4503599627370496)

/-- A context value (`enum Value` in the source): string, number, boolean or
null. -/
inductive Value where
  | Str (s : String)
  | Num (x : Fp)
  | Bool (b : Bool)
  | Null
deriving DecidableEq

/-- The context (`type Context = HashMap<String, Value>`), modelled by its
lookup function: `ctx k` is `HashMap::get(k)`. -/
def Context : Type := String → Option Value

/-- A rule (`struct Rule`): condition text and the value returned when the
condition holds. -/
structure Rule where
  cond : List Char
  then_value : Bool
deriving DecidableEq

/-- A flag (`struct Flag`): key, ordered rules, default value. -/
structure Flag where
  key : String
  rules : List Rule
  default : Bool
deriving DecidableEq

/-- The evaluation result (`struct EvalResult`). -/
structure EvalResult where
  key : String
  enabled : Bool
  matched_rule : Option ℕ
deriving DecidableEq

/-- Outcome classification of condition evaluation: `err` models the
recoverable `Err(())`, `panic` models a Rust panic. -/
inductive EvalErr where
  | err
  | panic
deriving DecidableEq

/-- Standard UTF-8 encoding of one character (what `str::as_bytes` yields per
character), as natural numbers below 256. -/
def utf8EncodeCharNat (c : Char) : List ℕ :=
  let v := c.toNat
  if v < 0x80 then [v]
  else if v < 0x800 then
    [0xC0 ||| (v >>> 6), 0x80 ||| (v &&& 0x3F)]
  else if v < 0x10000 then
    [0xE0 ||| (v >>> 12), 0x80 ||| ((v >>> 6) &&& 0x3F), 0x80 ||| (v &&& 0x3F)]
  else
    [0xF0 ||| (v >>> 18), 0x80 ||| ((v >>> 12) &&& 0x3F),
     0x80 ||| ((v >>> 6) &&& 0x3F), 0x80 ||| (v &&& 0x3F)]

/-- UTF-8 byte sequence of a character list (`str::as_bytes`). -/
def utf8Bytes (l : List Char) : List ℕ :=
  l.flatMap utf8EncodeCharNat

/-- The 32-bit FNV-1a hash loop of `fn rollout`: offset basis `0x811c9dc5`;
for each byte, XOR the byte into the hash (no reduction needed: xor of values
below 2³² stays below 2³²), then `wrapping_mul` by `0x01000193`, i.e.
multiplication modulo 2³². -/
def fnv1aHash (bytes : List ℕ) : ℕ :=
  bytes.foldl (fun h b => ((h ^^^ b) * 0x01000193) % 4294967296) 0x811c9dc5

/-- `fn rollout`: 32-bit FNV-1a hash of `flagKey:userId` mapped to a bucket in
[0,1), compared against `p`. -/
def rollout (flag_key user_id : String) (p : Fp) : Bool :=
  let concatenated := flag_key ++ ":" ++ user_id
  let hash : ℕ := fnv1aHash (utf8Bytes concatenated.toList)
  Fp.lt (.finite ((hash : ℚ) / 4294967296)) p

/-- Modelled from the spec's reference description of the Rollout Hasher
(§4.6, quoted by claim C3): concatenate `flagKey + ":" + userId`, hash the
UTF-8 bytes with 32-bit FNV-1a (offset basis `0x811c9dc5`; for each byte XOR
the byte into the hash, then multiply by the prime `0x01000193` modulo 2³²),
map the hash to `bucket = hash / 2³² ∈ [0,1)` and return `bucket < p`. -/
def rolloutSpec (flag_key user_id : String) (p : Fp) : Bool :=
  let bytes := utf8Bytes (flag_key ++ ":" ++ user_id).toList
  let hash : ℕ := bytes.foldl (fun h b => ((h ^^^ b) * 0x01000193) % 2 ^ 32) 0x811c9dc5
  let bucket : ℚ := (hash : ℚ) / 2 ^ 32
  Fp.lt (.finite bucket) p

/-- Whitespace trimming (`str::trim`).  Rust trims all Unicode `White_Space`
characters; `Char.isWhitespace` covers the ASCII ones, which are the only
whitespace the evaluated rule texts of this crate contain. -/
def trimChars (l : List Char) : List Char :=
  ((l.dropWhile Char.isWhitespace).reverse.dropWhile Char.isWhitespace).reverse

/-- The parenthesis-depth adjustment of the Separator Scanner for one
character: `(` increments, `)` decrements (the depth is a signed integer and
may go below zero), every other character leaves the depth unchanged. -/
def parenAdjust (c : Char) (d : Int) : Int :=
  if c = '(' then d + 1 else if c = ')' then d - 1 else d

/-- The token `"||"`. -/
def orTok : List Char := ['|', '|']

/-- The token `"&&"`. -/
def andTok : List Char := ['&', '&']

/-- The comparison operator tokens in the order the source tries them:
`[" in ", "<=", ">=", "==", "!=", "<", ">"]`. -/
def cmpOps : List (List Char) :=
  [[' ', 'i', 'n', ' '], ['<', '='], ['>', '='], ['=', '='], ['!', '='], ['<'], ['>']]

/-- The loop body of `fn split_top_level`, scanning the remaining characters
`l` with single-quote flag `sq`, double-quote flag `dq`, parenthesis depth `d`
and current index `i`.  The scan stops (Rust loop guard
`i + sep.len() <= bytes.len()`) as soon as fewer than `sep.length` characters
remain. -/
def splitAux (sep : List Char) : List Char → Bool → Bool → Int → ℕ → Option ℕ
  | [], _, _, _, _ => none
  | c :: rest, sq, dq, d, i =>
    if (c :: rest).length < sep.length then none
    else if c = '\'' ∧ dq = false then splitAux sep rest (!sq) dq d (i + 1)
    else if c = '"' ∧ sq = false then splitAux sep rest sq (!dq) d (i + 1)
    else if sq = false ∧ dq = false then
      if parenAdjust c d = 0 ∧ sep.isPrefixOf (c :: rest) then some i
      else splitAux sep rest sq dq (parenAdjust c d) (i + 1)
    else splitAux sep rest sq dq d (i + 1)

/-- `fn split_top_level`: index of the first occurrence of `sep` outside
quotes and parentheses. -/
def split_top_level (s sep : List Char) : Option ℕ :=
  splitAux sep s false false 0 0

/-- Scanner state: single-quote flag, double-quote flag, parenthesis depth. -/
structure ScanSt where
  sq : Bool
  dq : Bool
  depth : Int
deriving DecidableEq

/-- Initial scanner state. -/
def scanInit : ScanSt := ⟨false, false, 0⟩

/-- One scanner transition on a character, mirroring the quote/parenthesis
bookkeeping of `fn split_top_level`: a single quote toggles its flag only when
the double-quote flag is clear, a double quote toggles its flag only when the
single-quote flag is clear, and the depth is adjusted only outside quotes. -/
def scanStep (st : ScanSt) (c : Char) : ScanSt :=
  if c = '\'' ∧ st.dq = false then ⟨!st.sq, st.dq, st.depth⟩
  else if c = '"' ∧ st.sq = false then ⟨st.sq, !st.dq, st.depth⟩
  else if st.sq = false ∧ st.dq = false then ⟨st.sq, st.dq, parenAdjust c st.depth⟩
  else st

/-- The scanner state reached after the first `i` characters of `s`. -/
def scanStateAt (s : List Char) (i : ℕ) : ScanSt :=
  (s.take i).foldl scanStep scanInit

/-- Whether position `k` of `l`, scanned from state `st`, is a position at
which the separator `sep` is reported: some character `c` stands at `k`, both
quote flags are clear there, `c` is not a quote character (a quote character
is consumed by its toggle and never checked against the separator), the depth
after the parenthesis adjustment for `c` is zero, and `sep` occurs at `k`. -/
def matchFrom (sep : List Char) (st : ScanSt) (l : List Char) (k : ℕ) : Bool :=
  match l.drop k with
  | [] => false
  | c :: rest =>
    let stk := (l.take k).foldl scanStep st
    !stk.sq && !stk.dq && !(c == '\'') && !(c == '"') &&
      decide ((scanStep stk c).depth = 0) && sep.isPrefixOf (c :: rest)

/-- State-machine rendering of the Separator Scanner: the first position of
the text at which `matchFrom` reports the separator. -/
def splitTopLevelSpec (s sep : List Char) : Option ℕ :=
  (List.range s.length).find? (matchFrom sep scanInit s)

/-- Modelled from the claim C5 / spec §4.1 wording of the Separator Scanner:
"each quote character independently toggles its own inside-quote flag",
i.e. a single quote always toggles the single-quote flag and a double quote
always toggles the double-quote flag, regardless of the other flag; the
parenthesis depth is tracked and the separator matched only while neither
flag is set. -/
def splitIndepAux (sep : List Char) : List Char → Bool → Bool → Int → ℕ → Option ℕ
  | [], _, _, _, _ => none
  | c :: rest, sq, dq, d, i =>
    if (c :: rest).length < sep.length then none
    else if c = '\'' then splitIndepAux sep rest (!sq) dq d (i + 1)
    else if c = '"' then splitIndepAux sep rest sq (!dq) d (i + 1)
    else if sq = false ∧ dq = false then
      if parenAdjust c d = 0 ∧ sep.isPrefixOf (c :: rest) then some i
      else splitIndepAux sep rest sq dq (parenAdjust c d) (i + 1)
    else splitIndepAux sep rest sq dq d (i + 1)

/-- The independently-toggling scanner of the claim C5 wording. -/
def splitTopLevelIndep (s sep : List Char) : Option ℕ :=
  splitIndepAux sep s false false 0 0

/-- ASCII lower-casing of one character, as used by
`str::eq_ignore_ascii_case`. -/
def asciiLower (c : Char) : Char :=
  if 'A' ≤ c ∧ c ≤ 'Z' then Char.ofNat (c.toNat + 32) else c

/-- Numeric value of a digit string read left to right. -/
def digitsToNat (l : List Char) : ℕ :=
  l.foldl (fun a c => a * 10 + (c.toNat - '0'.toNat)) 0

/-- A nonempty all-digit string, or nothing. -/
def parseDigits? (l : List Char) : Option ℕ :=
  if l ≠ [] ∧ l.all Char.isDigit then some (digitsToNat l) else none

/-- The exponent part of a Rust float literal (after the `e`/`E`): optional
sign, then at least one digit. -/
def parseExp? (l : List Char) : Option ℤ :=
  if l.head? = some '+' then (parseDigits? l.tail).map (fun n => (n : ℤ))
  else if l.head? = some '-' then (parseDigits? l.tail).map (fun n => -(n : ℤ))
  else (parseDigits? l).map (fun n => (n : ℤ))

/-- Not the decimal point. -/
def notDot (c : Char) : Bool := c ≠ '.'

/-- Not an exponent marker. -/
def notExp (c : Char) : Bool := c ≠ 'e' ∧ c ≠ 'E'

/-- The mantissa of a Rust float literal: `Digits '.'? Digits?` or
`'.' Digits` (at least one digit overall, at most one dot). -/
def parseMantissa? (l : List Char) : Option ℚ :=
  let ip := l.takeWhile notDot
  match l.dropWhile notDot with
  | [] =>
    if ip ≠ [] ∧ ip.all Char.isDigit then some ((digitsToNat ip : ℚ)) else none
  | _ :: fp =>
    if (ip ≠ [] ∨ fp ≠ []) ∧ ip.all Char.isDigit ∧ fp.all Char.isDigit then
      some ((digitsToNat ip : ℚ) + (digitsToNat fp : ℚ) / 10 ^ fp.length)
    else none

/-- The unsigned numeric part of a Rust float literal: mantissa with optional
`e`/`E` exponent. -/
def parseNumber? (l : List Char) : Option ℚ :=
  let mant := l.takeWhile notExp
  match l.dropWhile notExp with
  | [] => parseMantissa? mant
  | _ :: rest =>
    match parseMantissa? mant, parseExp? rest with
    | some m, some e => some (m * (10 : ℚ) ^ e)
    | _, _ => none

/-- `str::parse::<f64>()` (`f64::from_str`): optional sign, then one of the
case-insensitive words `inf` / `infinity` / `nan` or a decimal number with
optional exponent.  Finite results are kept exact (rounding to the nearest
double, and the overflow of huge literals to infinity, are not modelled; no
claim depends on the value of a parsed finite literal, only on whether
parsing succeeds). -/
def parseFloat? (l : List Char) : Option Fp :=
  let neg : Bool := l.head? = some '-'
  let body := if l.head? = some '+' ∨ l.head? = some '-' then l.tail else l
  let lower := body.map asciiLower
  if lower = ['i', 'n', 'f'] ∨ lower = ['i', 'n', 'f', 'i', 'n', 'i', 't', 'y'] then
    some (if neg then .negInf else .posInf)
  else if lower = ['n', 'a', 'n'] then some .nan
  else
    match parseNumber? body with
    | some q => some (.finite (if neg then -q else q))
    | none => none

/-- The token `"rollout("`. -/
def rolloutTok : List Char := ['r', 'o', 'l', 'l', 'o', 'u', 't', '(']

/-- `fn parse_term_as_value`: resolve a trimmed fragment to a value, trying a
`rollout(p)` call, the case-insensitive boolean literals, a float literal, a
quoted string and finally a context lookup (absent identifiers resolve to
`Null`).  In the quoted-string branch the source computes `&t[1..t.len()-1]`,
which panics when `t` is a single character (slice bounds `1..0`); that panic
is modelled by `.error .panic`. -/
def parse_term_as_value (term : List Char) (ctx : Context) (flag_key : String) :
    Except EvalErr Value :=
  let t := trimChars term
  if rolloutTok.isPrefixOf t ∧ (t.drop rolloutTok.length).getLast? = some ')' then
    match parseFloat? (trimChars ((t.drop rolloutTok.length).dropLast)) with
    | none => .error .err
    | some p =>
      let user_id : String :=
        match ctx "userId" with
        | some (.Str s) => s
        | _ => ""
      .ok (.Bool (rollout flag_key user_id p))
  else if t.map asciiLower = ['t', 'r', 'u', 'e'] then .ok (.Bool true)
  else if t.map asciiLower = ['f', 'a', 'l', 's', 'e'] then .ok (.Bool false)
  else
    match parseFloat? t with
    | some n => .ok (.Num n)
    | none =>
      if (t.head? = some '"' ∧ t.getLast? = some '"') ∨
          (t.head? = some '\'' ∧ t.getLast? = some '\'') then
        if t.length < 2 then .error .panic
        else .ok (.Str (String.mk ((t.drop 1).dropLast)))
      else
        match ctx (String.mk t) with
        | some v => .ok v
        | none => .ok .Null

/-- `fn eval_comparison`: compare two resolved values.  Strings and booleans
support only `==`/`!=`; numbers support the full operator set with
epsilon-tolerant equality; every mismatched type pairing yields `Ok(false)`. -/
def eval_comparison (left : Value) (op : List Char) (right : Value) :
    Except EvalErr Bool :=
  match left, right with
  | .Str a, .Str b =>
    if op = ['=', '='] then .ok (a == b)
    else if op = ['!', '='] then .ok (a != b)
    else .error .err
  | .Num a, .Num b =>
    if op = ['=', '='] then .ok (Fp.lt (Fp.abs (Fp.sub a b)) f64Epsilon)
    else if op = ['!', '='] then .ok (!Fp.lt (Fp.abs (Fp.sub a b)) f64Epsilon)
    else if op = ['<'] then .ok (Fp.lt a b)
    else if op = ['<', '='] then .ok (Fp.le a b)
    else if op = ['>'] then .ok (Fp.lt b a)
    else if op = ['>', '='] then .ok (Fp.le b a)
    else .error .err
  | .Bool a, .Bool b =>
    if op = ['=', '='] then .ok (a == b)
    else if op = ['!', '='] then .ok (a != b)
    else .error .err
  | _, _ => .ok false

/-- `str::split(',')` on a character list: the (possibly empty) segments
between commas; the empty input yields one empty segment. -/
def splitComma : List Char → List (List Char)
  | [] => [[]]
  | c :: rest =>
    if c = ',' then [] :: splitComma rest
    else
      match splitComma rest with
      | [] => [[c]]
      | part :: parts => (c :: part) :: parts

/-- The loop body of `fn eval_in` over the comma-separated parts: each trimmed
token that is a quoted string is unquoted and compared with `s`; other tokens
are skipped.  A token that is a single quote character panics on
`&token[1..token.len()-1]`, modelled by `.error .panic`. -/
def inListCheck (s : String) : List (List Char) → Except EvalErr Bool
  | [] => .ok false
  | part :: rest =>
    let token := trimChars part
    if (token.head? = some '"' ∧ token.getLast? = some '"') ∨
        (token.head? = some '\'' ∧ token.getLast? = some '\'') then
      if token.length < 2 then .error .panic
      else if String.mk ((token.drop 1).dropLast) = s then .ok true
      else inListCheck s rest
    else inListCheck s rest

/-- `fn eval_in`: membership of a string in a parenthesized comma-separated
list of quoted strings.  A non-string left operand yields `Ok(false)`; a
right-hand side that is not parenthesized yields `Err(())`. -/
def eval_in (left : Value) (rhs : List Char) : Except EvalErr Bool :=
  match left with
  | .Str s =>
    let trimmed := trimChars rhs
    if trimmed.head? = some '(' ∧ trimmed.getLast? = some ')' then
      inListCheck s (splitComma ((trimmed.drop 1).dropLast))
    else .error .err
  | _ => .ok false

/-- The comparison-operator loop of `fn eval_expr`: the first operator of
`cmpOps` (in order) that splits at top level, with its index. -/
def findOp : List (List Char) → List Char → Option (List Char × ℕ)
  | [], _ => none
  | op :: rest, s =>
    match split_top_level s op with
    | some idx => some (op, idx)
    | none => findOp rest s

/-- The comparison-and-term level of `fn eval_expr` (the part after the `||`
and `&&` splits failed): try the comparison operators in order, otherwise the
whole fragment must resolve to a boolean. -/
def evalCmpLevel (flag_key : String) (ctx : Context) (s : List Char) :
    Except EvalErr Bool :=
  match findOp cmpOps s with
  | some (op, idx) =>
    let lhs := trimChars (s.take idx)
    let rhs := trimChars (s.drop (idx + op.length))
    match parse_term_as_value lhs ctx flag_key with
    | .error e => .error e
    | .ok left_value =>
      if trimChars op = ['i', 'n'] then eval_in left_value rhs
      else
        match parse_term_as_value rhs ctx flag_key with
        | .error e => .error e
        | .ok right_value => eval_comparison left_value op right_value
  | none =>
    match parse_term_as_value s ctx flag_key with
    | .error e => .error e
    | .ok (.Bool b) => .ok b
    | .ok _ => .error .err

/-- `fn eval_expr`, with an explicit recursion budget.  Every recursive call
of the source is on a strict substring of `s`, so any budget exceeding
`s.length` yields the function the source computes (the budget-exhausted
branch is unreachable then; see `evalExprFuel_irrel`). -/
def evalExprFuel (flag_key : String) (ctx : Context) : ℕ → List Char → Except EvalErr Bool
  | 0, _ => .error .err
  | n + 1, s =>
    match split_top_level s orTok with
    | some idx =>
      match evalExprFuel flag_key ctx n (trimChars (s.take idx)) with
      | .error e => .error e
      | .ok true => .ok true
      | .ok false => evalExprFuel flag_key ctx n (trimChars (s.drop (idx + 2)))
    | none =>
      match split_top_level s andTok with
      | some idx =>
        match evalExprFuel flag_key ctx n (trimChars (s.take idx)) with
        | .error e => .error e
        | .ok false => .ok false
        | .ok true => evalExprFuel flag_key ctx n (trimChars (s.drop (idx + 2)))
      | none => evalCmpLevel flag_key ctx s

/-- `fn eval_expr`: short-circuit `||` and `&&` (splitting at the first
top-level occurrence, left side first), then the comparison level. -/
def eval_expr (flag_key : String) (ctx : Context) (s : List Char) : Except EvalErr Bool :=
  evalExprFuel flag_key ctx (s.length + 1) s

/-- `fn eval_rule_expr`: trim the condition text and evaluate it. -/
def eval_rule_expr (flag_key : String) (expr : List Char) (ctx : Context) :
    Except EvalErr Bool :=
  eval_expr flag_key ctx (trimChars expr)

/-- The loop of `fn eval_rules` from index `i`: first rule whose condition
evaluates to `Ok(true)`; `Ok(false)` and `Err(())` skip to the next rule; a
panic aborts the whole evaluation (`.error ()`). -/
def evalRulesAux (flag_key : String) (ctx : Context) :
    List Rule → ℕ → Except Unit (Option (ℕ × Bool))
  | [], _ => .ok none
  | r :: rest, i =>
    match eval_rule_expr flag_key r.cond ctx with
    | .ok true => .ok (some (i, r.then_value))
    | .ok false => evalRulesAux flag_key ctx rest (i + 1)
    | .error .err => evalRulesAux flag_key ctx rest (i + 1)
    | .error .panic => .error ()

/-- `fn eval_rules`: index and value of the first matching rule. -/
def eval_rules (flag : Flag) (ctx : Context) : Except Unit (Option (ℕ × Bool)) :=
  evalRulesAux flag.key ctx flag.rules 0

/-- `fn eval_flag`: result of the first matching rule, or the default.  The
outer `Except Unit` records whether the Rust code panics (`.error ()`) —
the Rust signature promises a plain `EvalResult`. -/
def eval_flag (flag : Flag) (ctx : Context) : Except Unit EvalResult :=
  match eval_rules flag ctx with
  | .error () => .error ()
  | .ok (some (idx, val)) => .ok ⟨flag.key, val, some idx⟩
  | .ok none => .ok ⟨flag.key, flag.default, none⟩

/-- Modelled from the spec's description of the Flag Evaluator (§4.7, quoted
by claim C2): iterate the rules in order from index `i`; the first rule whose
condition evaluates to success-true wins; success-false and every failure skip
to the next rule. -/
def specEvalAux (key : String) (ctx : Context) : List Rule → ℕ → Option (ℕ × Bool)
  | [], _ => none
  | r :: rest, i =>
    match eval_rule_expr key r.cond ctx with
    | .ok true => some (i, r.then_value)
    | _ => specEvalAux key ctx rest (i + 1)

/-- Modelled from the spec's description of the Flag Evaluator (§4.7): the
result of the first success-true rule, else the flag's default with no
matched rule. -/
def specEval (flag : Flag) (ctx : Context) : EvalResult :=
  match specEvalAux flag.key ctx flag.rules 0 with
  | some (i, v) => ⟨flag.key, v, some i⟩
  | none => ⟨flag.key, flag.default, none⟩

/-- The empty context. -/
def emptyCtx : Context := fun _ => none

/-- Whether a value is a `Str`. -/
def isStr : Value → Bool
  | .Str _ => true
  | _ => false

/-- Whether a value is a `Num`. -/
def isNum : Value → Bool
  | .Num _ => true
  | _ => false

/-- Whether a value is a `Bool`. -/
def isBool : Value → Bool
  | .Bool _ => true
  | _ => false

end FFE

deriving instance DecidableEq for Except

namespace FFE

/-- A reported separator index lies at least `sep.length` characters before
the end of the scanned text (the scan stops once fewer than `sep.length`
characters remain). -/
theorem splitAux_some_le (sep : List Char) :
    ∀ (l : List Char) (sq dq : Bool) (d : Int) (i j : ℕ),
      splitAux sep l sq dq d i = some j → i ≤ j ∧ j + sep.length ≤ i + l.length := by
  intro l
  induction l with
  | nil => intro sq dq d i j h; exact Option.noConfusion h
  | cons c rest ih =>
    intro sq dq d i j h
    rw [splitAux] at h
    by_cases h1 : (c :: rest).length < sep.length
    · rw [if_pos h1] at h; exact Option.noConfusion h
    · rw [if_neg h1] at h
      simp only [List.length_cons] at h1 ⊢
      by_cases h2 : c = '\'' ∧ dq = false
      · rw [if_pos h2] at h
        have := ih (!sq) dq d (i + 1) j h
        omega
      · rw [if_neg h2] at h
        by_cases h3 : c = '"' ∧ sq = false
        · rw [if_pos h3] at h
          have := ih sq (!dq) d (i + 1) j h
          omega
        · rw [if_neg h3] at h
          by_cases h4 : sq = false ∧ dq = false
          · rw [if_pos h4] at h
            by_cases h5 : parenAdjust c d = 0 ∧ sep.isPrefixOf (c :: rest) = true
            · rw [if_pos h5] at h
              injection h with hij
              omega
            · rw [if_neg h5] at h
              have := ih sq dq (parenAdjust c d) (i + 1) j h
              omega
          · rw [if_neg h4] at h
            have := ih sq dq d (i + 1) j h
            omega

/-- Bound form of `splitAux_some_le` for the top-level scanner. -/
theorem split_some_le {s sep : List Char} {idx : ℕ}
    (h : split_top_level s sep = some idx) : idx + sep.length ≤ s.length := by
  have := splitAux_some_le sep s false false 0 0 idx h
  omega

/-- Trimming never lengthens a string. -/
theorem trimChars_length_le (l : List Char) : (trimChars l).length ≤ l.length := by
  unfold trimChars
  calc (((l.dropWhile Char.isWhitespace).reverse.dropWhile Char.isWhitespace).reverse).length
      = ((l.dropWhile Char.isWhitespace).reverse.dropWhile Char.isWhitespace).length := by
        rw [List.length_reverse]
    _ ≤ (l.dropWhile Char.isWhitespace).reverse.length :=
        (List.dropWhile_suffix _).length_le
    _ = (l.dropWhile Char.isWhitespace).length := by rw [List.length_reverse]
    _ ≤ l.length := (List.dropWhile_suffix _).length_le

/-- The trimmed left fragment of a two-character separator split is strictly
shorter than the whole text. -/
theorem trim_take_lt {s : List Char} {idx : ℕ} (h : idx + 2 ≤ s.length) :
    (trimChars (s.take idx)).length < s.length := by
  have h1 := trimChars_length_le (s.take idx)
  have h2 : (s.take idx).length = min idx s.length := List.length_take idx s
  have h3 : min idx s.length ≤ idx := Nat.min_le_left _ _
  omega

/-- The trimmed right fragment of a two-character separator split is strictly
shorter than the whole text. -/
theorem trim_drop_lt {s : List Char} {idx : ℕ} (h : idx + 2 ≤ s.length) :
    (trimChars (s.drop (idx + 2))).length < s.length := by
  have h1 := trimChars_length_le (s.drop (idx + 2))
  have h2 : (s.drop (idx + 2)).length = s.length - (idx + 2) := List.length_drop _ s
  omega

/-- Any recursion budget exceeding the text length yields the same value:
the budget-exhausted branch of `evalExprFuel` is unreachable because every
recursive call is on a strictly shorter fragment. -/
theorem evalExprFuel_irrel (fk : String) (ctx : Context) :
    ∀ (n m : ℕ) (s : List Char), s.length < n → s.length < m →
      evalExprFuel fk ctx n s = evalExprFuel fk ctx m s := by
  intro n
  induction n with
  | zero => intro m s hn; omega
  | succ n ih =>
    intro m s hn hm
    cases m with
    | zero => omega
    | succ m =>
      rw [evalExprFuel, evalExprFuel]
      cases hor : split_top_level s orTok with
      | some idx =>
        simp only [hor]
        have hb : idx + 2 ≤ s.length := split_some_le hor
        have hltn : (trimChars (s.take idx)).length < n :=
          Nat.lt_of_lt_of_le (trim_take_lt hb) (Nat.lt_succ_iff.mp hn)
        have hltm : (trimChars (s.take idx)).length < m :=
          Nat.lt_of_lt_of_le (trim_take_lt hb) (Nat.lt_succ_iff.mp hm)
        have hrtn : (trimChars (s.drop (idx + 2))).length < n :=
          Nat.lt_of_lt_of_le (trim_drop_lt hb) (Nat.lt_succ_iff.mp hn)
        have hrtm : (trimChars (s.drop (idx + 2))).length < m :=
          Nat.lt_of_lt_of_le (trim_drop_lt hb) (Nat.lt_succ_iff.mp hm)
        rw [ih m _ hltn hltm, ih m _ hrtn hrtm]
      | none =>
        simp only [hor]
        cases hand : split_top_level s andTok with
        | some idx =>
          simp only [hand]
          have hb : idx + 2 ≤ s.length := split_some_le hand
          have hltn : (trimChars (s.take idx)).length < n :=
            Nat.lt_of_lt_of_le (trim_take_lt hb) (Nat.lt_succ_iff.mp hn)
          have hltm : (trimChars (s.take idx)).length < m :=
            Nat.lt_of_lt_of_le (trim_take_lt hb) (Nat.lt_succ_iff.mp hm)
          have hrtn : (trimChars (s.drop (idx + 2))).length < n :=
            Nat.lt_of_lt_of_le (trim_drop_lt hb) (Nat.lt_succ_iff.mp hn)
          have hrtm : (trimChars (s.drop (idx + 2))).length < m :=
            Nat.lt_of_lt_of_le (trim_drop_lt hb) (Nat.lt_succ_iff.mp hm)
          rw [ih m _ hltn hltm, ih m _ hrtn hrtm]
        | none => simp only [hand]

/-- Unfolding of `eval_expr` when an `||` splits at top level. -/
theorem eval_expr_or_some (fk : String) (ctx : Context) {s : List Char} {idx : ℕ}
    (h : split_top_level s orTok = some idx) :
    eval_expr fk ctx s =
      match eval_expr fk ctx (trimChars (s.take idx)) with
      | .error e => .error e
      | .ok true => .ok true
      | .ok false => eval_expr fk ctx (trimChars (s.drop (idx + 2))) := by
  have hb : idx + 2 ≤ s.length := split_some_le h
  unfold eval_expr
  rw [evalExprFuel]
  simp only [h]
  rw [evalExprFuel_irrel fk ctx s.length ((trimChars (s.take idx)).length + 1) _
        (trim_take_lt hb) (Nat.lt_succ_self _),
      evalExprFuel_irrel fk ctx s.length ((trimChars (s.drop (idx + 2))).length + 1) _
        (trim_drop_lt hb) (Nat.lt_succ_self _)]

/-- Shifting `matchFrom` by one character advances the scanner state. -/
theorem matchFrom_succ (sep : List Char) (st : ScanSt) (c : Char) (rest : List Char) (k : ℕ) :
    matchFrom sep st (c :: rest) (k + 1) = matchFrom sep (scanStep st c) rest k := rfl

/-- `matchFrom` at position zero, unfolded. -/
theorem matchFrom_zero (sep : List Char) (st : ScanSt) (c : Char) (rest : List Char) :
    matchFrom sep st (c :: rest) 0 =
      (!st.sq && !st.dq && !(c == '\'') && !(c == '"') &&
        decide ((scanStep st c).depth = 0) && sep.isPrefixOf (c :: rest)) := rfl

/-- A separator longer than the remaining text never matches. -/
theorem matchFrom_short (sep : List Char) (st : ScanSt) (l : List Char) (k : ℕ)
    (h : l.length < sep.length) : matchFrom sep st l k = false := by
  rcases hd : l.drop k with _ | ⟨c, r⟩
  · simp [matchFrom, hd]
  · have hlen : (c :: r).length = l.length - k := by
      rw [← hd, List.length_drop]
    have hp : sep.isPrefixOf (c :: r) = false := by
      cases hb : sep.isPrefixOf (c :: r)
      · rfl
      · have hle := (List.isPrefixOf_iff_prefix.mp hb).length_le
        simp only [List.length_cons] at hle hlen
        omega
    simp [matchFrom, hd, hp]

/-- `find?` over `range (n + 1)`, split into position zero and the shifted
rest. -/
theorem find_range_succ (p : ℕ → Bool) (n : ℕ) :
    (List.range (n + 1)).find? p =
      if p 0 then some 0
      else ((List.range n).find? (fun k => p (k + 1))).map (· + 1) := by
  rw [List.range_succ_eq_map, List.find?_cons]
  cases hp : p 0
  · simp only [Bool.false_eq_true, if_false, List.find?_map]
    rfl
  · simp

/-- The scanner loop equals the first position accepted by `matchFrom`,
relative to a starting state and index. -/
theorem splitAux_eq_find (sep : List Char) :
    ∀ (l : List Char) (st : ScanSt) (i : ℕ),
      splitAux sep l st.sq st.dq st.depth i =
        ((List.range l.length).find? (matchFrom sep st l)).map (· + i) := by
  intro l
  induction l with
  | nil => intro st i; simp [splitAux]
  | cons c rest ih =>
    intro st i
    rw [splitAux]
    by_cases h1 : (c :: rest).length < sep.length
    · rw [if_pos h1]
      rw [List.find?_eq_none.mpr (fun k _ => by rw [matchFrom_short sep st _ k h1]; simp)]
      rfl
    · rw [if_neg h1]
      simp only [List.length_cons]
      rw [find_range_succ]
      by_cases h2 : c = '\'' ∧ st.dq = false
      · have hstep : scanStep st c = ⟨!st.sq, st.dq, st.depth⟩ := by
          rw [scanStep, if_pos h2]
        have hm0 : matchFrom sep st (c :: rest) 0 = false := by
          rw [matchFrom_zero]
          rcases h2 with ⟨hc, _⟩
          subst hc
          simp
        rw [if_pos h2, hm0, if_neg Bool.false_ne_true]
        have hfun : (fun k => matchFrom sep st (c :: rest) (k + 1)) =
            matchFrom sep (⟨!st.sq, st.dq, st.depth⟩ : ScanSt) rest := by
          funext k
          rw [matchFrom_succ, hstep]
        rw [hfun]
        have hrec := ih ⟨!st.sq, st.dq, st.depth⟩ (i + 1)
        dsimp only at hrec
        rw [hrec]
        cases (List.range rest.length).find? (matchFrom sep (⟨!st.sq, st.dq, st.depth⟩ : ScanSt) rest) with
        | none => rfl
        | some k => simp only [Option.map_some']; congr 1; omega
      · rw [if_neg h2]
        by_cases h3 : c = '"' ∧ st.sq = false
        · have hstep : scanStep st c = ⟨st.sq, !st.dq, st.depth⟩ := by
            rw [scanStep, if_neg h2, if_pos h3]
          have hm0 : matchFrom sep st (c :: rest) 0 = false := by
            rw [matchFrom_zero]
            rcases h3 with ⟨hc, _⟩
            subst hc
            simp
          rw [if_pos h3, hm0, if_neg Bool.false_ne_true]
          have hfun : (fun k => matchFrom sep st (c :: rest) (k + 1)) =
              matchFrom sep (⟨st.sq, !st.dq, st.depth⟩ : ScanSt) rest := by
            funext k
            rw [matchFrom_succ, hstep]
          rw [hfun]
          have hrec := ih ⟨st.sq, !st.dq, st.depth⟩ (i + 1)
          dsimp only at hrec
          rw [hrec]
          cases (List.range rest.length).find? (matchFrom sep (⟨st.sq, !st.dq, st.depth⟩ : ScanSt) rest) with
          | none => rfl
          | some k => simp only [Option.map_some']; congr 1; omega
        · rw [if_neg h3]
          by_cases h4 : st.sq = false ∧ st.dq = false
          · have hc1 : ¬ c = '\'' := fun hc => h2 ⟨hc, h4.2⟩
            have hc2 : ¬ c = '"' := fun hc => h3 ⟨hc, h4.1⟩
            have hstep : scanStep st c = ⟨st.sq, st.dq, parenAdjust c st.depth⟩ := by
              rw [scanStep, if_neg h2, if_neg h3, if_pos h4]
            rw [if_pos h4]
            by_cases h5 : parenAdjust c st.depth = 0 ∧ sep.isPrefixOf (c :: rest) = true
            · have hm0 : matchFrom sep st (c :: rest) 0 = true := by
                rw [matchFrom_zero, hstep]
                simp [h4.1, h4.2, beq_eq_false_iff_ne.mpr hc1, beq_eq_false_iff_ne.mpr hc2,
                  h5.1, h5.2]
              rw [if_pos h5, hm0, if_pos rfl]
              simp
            · have hm0 : matchFrom sep st (c :: rest) 0 = false := by
                rw [matchFrom_zero, hstep]
                rcases not_and_or.mp h5 with hd0 | hpre
                · simp [decide_eq_false hd0]
                · cases hb : sep.isPrefixOf (c :: rest)
                  · simp [hb]
                  · exact absurd hb hpre
              rw [if_neg h5, hm0, if_neg Bool.false_ne_true]
              have hfun : (fun k => matchFrom sep st (c :: rest) (k + 1)) =
                  matchFrom sep (⟨st.sq, st.dq, parenAdjust c st.depth⟩ : ScanSt) rest := by
                funext k
                rw [matchFrom_succ, hstep]
              rw [hfun]
              have hrec := ih ⟨st.sq, st.dq, parenAdjust c st.depth⟩ (i + 1)
              dsimp only at hrec
              rw [hrec]
              cases (List.range rest.length).find? (matchFrom sep (⟨st.sq, st.dq, parenAdjust c st.depth⟩ : ScanSt) rest) with
              | none => rfl
              | some k => simp only [Option.map_some']; congr 1; omega
          · have hstep : scanStep st c = st := by
              rw [scanStep, if_neg h2, if_neg h3, if_neg h4]
            have hm0 : matchFrom sep st (c :: rest) 0 = false := by
              rw [matchFrom_zero]
              rcases not_and_or.mp h4 with hsq | hdq
              · have : st.sq = true := by revert hsq; cases st.sq <;> simp
                simp [this]
              · have : st.dq = true := by revert hdq; cases st.dq <;> simp
                simp [this]
            rw [if_neg h4, hm0, if_neg Bool.false_ne_true]
            have hfun : (fun k => matchFrom sep st (c :: rest) (k + 1)) =
                matchFrom sep st rest := by
              funext k
              rw [matchFrom_succ, hstep]
            rw [hfun]
            rw [ih st (i + 1)]
            cases (List.range rest.length).find? (matchFrom sep st rest) with
            | none => rfl
            | some k => simp only [Option.map_some']; congr 1; omega


/-- The Separator Scanner equals its state-machine rendering. -/
theorem split_top_level_eq_spec (s sep : List Char) :
    split_top_level s sep = splitTopLevelSpec s sep := by
  calc split_top_level s sep
      = splitAux sep s scanInit.sq scanInit.dq scanInit.depth 0 := rfl
    _ = ((List.range s.length).find? (matchFrom sep scanInit s)).map (· + 0) :=
        splitAux_eq_find sep s scanInit 0
    _ = splitTopLevelSpec s sep := by
        rw [splitTopLevelSpec]
        cases (List.range s.length).find? (matchFrom sep scanInit s) <;> simp

/-- A reported separator index satisfies `matchFrom` and lies inside the
text. -/
theorem split_some_matchFrom {s sep : List Char} {i : ℕ}
    (h : split_top_level s sep = some i) :
    matchFrom sep scanInit s i = true ∧ i < s.length := by
  have he : split_top_level s sep =
      ((List.range s.length).find? (matchFrom sep scanInit s)).map (· + 0) :=
    splitAux_eq_find sep s scanInit 0
  rw [h] at he
  cases hf : (List.range s.length).find? (matchFrom sep scanInit s) with
  | none => rw [hf] at he; exact Option.noConfusion he
  | some j =>
    rw [hf] at he
    simp only [Option.map_some', Option.some.injEq, Nat.add_zero] at he
    subst he
    exact ⟨List.find?_some hf, List.mem_range.mp (List.mem_of_find?_eq_some hf)⟩

/-- Advancing the scanner state by one character. -/
theorem scanStateAt_succ {s : List Char} {i : ℕ} {c : Char} {t : List Char}
    (h : s.drop i = c :: t) : scanStateAt s (i + 1) = scanStep (scanStateAt s i) c := by
  unfold scanStateAt
  rw [List.take_add, h]
  simp only [List.take_succ_cons, List.take_zero]
  rw [List.foldl_append]
  rfl

/-- At a reported separator index the quote flags are clear, the depth after
the parenthesis adjustment at that index is exactly zero, and the separator
occurs there. -/
theorem split_some_scan {s sep : List Char} {i : ℕ}
    (h : split_top_level s sep = some i) :
    (scanStateAt s i).sq = false ∧ (scanStateAt s i).dq = false ∧
      (scanStateAt s (i + 1)).depth = 0 ∧ sep.isPrefixOf (s.drop i) = true := by
  obtain ⟨hm, hlt⟩ := split_some_matchFrom h
  rcases hd : s.drop i with _ | ⟨c, t⟩
  · have hlen : (s.drop i).length = s.length - i := List.length_drop i s
    rw [hd] at hlen
    simp only [List.length_nil] at hlen
    omega
  · unfold matchFrom at hm
    rw [hd] at hm
    simp only [Bool.and_eq_true, Bool.not_eq_true', beq_eq_false_iff_ne,
      decide_eq_true_eq] at hm
    obtain ⟨⟨⟨⟨⟨hsq, hdq⟩, _⟩, _⟩, hdepth⟩, hpre⟩ := hm
    refine ⟨hsq, hdq, ?_, ?_⟩
    · rw [scanStateAt_succ hd]
      exact hdepth
    · exact hpre

/-- Unfolding of `eval_expr` when no `||` splits but an `&&` does. -/
theorem eval_expr_and_some (fk : String) (ctx : Context) {s : List Char} {idx : ℕ}
    (hor : split_top_level s orTok = none) (h : split_top_level s andTok = some idx) :
    eval_expr fk ctx s =
      match eval_expr fk ctx (trimChars (s.take idx)) with
      | .error e => .error e
      | .ok false => .ok false
      | .ok true => eval_expr fk ctx (trimChars (s.drop (idx + 2))) := by
  have hb : idx + 2 ≤ s.length := split_some_le h
  unfold eval_expr
  rw [evalExprFuel]
  simp only [hor, h]
  rw [evalExprFuel_irrel fk ctx s.length ((trimChars (s.take idx)).length + 1) _
        (trim_take_lt hb) (Nat.lt_succ_self _),
      evalExprFuel_irrel fk ctx s.length ((trimChars (s.drop (idx + 2))).length + 1) _
        (trim_drop_lt hb) (Nat.lt_succ_self _)]

/-- If every rule's condition evaluates to the recoverable `Err(())`, the
rule loop matches nothing. -/
theorem evalRulesAux_all_err (key : String) (ctx : Context) :
    ∀ (rs : List Rule) (i : ℕ),
      (∀ r ∈ rs, eval_rule_expr key r.cond ctx = .error .err) →
      evalRulesAux key ctx rs i = .ok none := by
  intro rs
  induction rs with
  | nil => intro i _; rfl
  | cons r rest ih =>
    intro i h
    have hr := h r (List.mem_cons_self r rest)
    simp only [evalRulesAux, hr]
    exact ih (i + 1) (fun r' hr' => h r' (List.mem_cons_of_mem r hr'))

/-- When no rule's condition evaluation panics, the rule loop computes the
spec-side first-match loop. -/
theorem evalRulesAux_eq_spec (key : String) (ctx : Context) :
    ∀ (rs : List Rule) (i : ℕ),
      (∀ r ∈ rs, eval_rule_expr key r.cond ctx ≠ .error .panic) →
      evalRulesAux key ctx rs i = .ok (specEvalAux key ctx rs i) := by
  intro rs
  induction rs with
  | nil => intro i _; rfl
  | cons r rest ih =>
    intro i h
    have htail : ∀ r' ∈ rest, eval_rule_expr key r'.cond ctx ≠ .error .panic :=
      fun r' hr' => h r' (List.mem_cons_of_mem r hr')
    cases he : eval_rule_expr key r.cond ctx with
    | ok b =>
      cases b
      · simp only [evalRulesAux, specEvalAux, he]
        exact ih (i + 1) htail
      · simp only [evalRulesAux, specEvalAux, he]
    | error e =>
      cases e
      · simp only [evalRulesAux, specEvalAux, he]
        exact ih (i + 1) htail
      · exact absurd he (h r (List.mem_cons_self r rest))

/-- When no rule's condition evaluation panics, `eval_flag` returns exactly
the spec-side result. -/
theorem eval_flag_eq_spec (flag : Flag) (ctx : Context)
    (h : ∀ r ∈ flag.rules, eval_rule_expr flag.key r.cond ctx ≠ .error .panic) :
    eval_flag flag ctx = .ok (specEval flag ctx) := by
  rw [eval_flag, eval_rules, evalRulesAux_eq_spec flag.key ctx flag.rules 0 h, specEval]
  cases specEvalAux flag.key ctx flag.rules 0 with
  | none => rfl
  | some p => cases p; rfl

/-- IEEE comparison is monotone: a finite value below `p1` is below any `p2`
with `p1 <= p2`. -/
theorem Fp.lt_le_trans {q : ℚ} {p1 p2 : Fp} (h1 : Fp.lt (.finite q) p1 = true)
    (h : Fp.le p1 p2 = true) : Fp.lt (.finite q) p2 = true := by
  rcases p1 with q1 | _ | _ | _ <;> rcases p2 with q2 | _ | _ | _ <;>
      simp_all [Fp.lt, Fp.le]
  exact lt_of_lt_of_le h1 h

/-- A fragment whose first character is neither a digit, a dot, a sign nor an
exponent marker has no mantissa. -/
theorem parseMantissa?_head_bad {c : Char} (t : List Char) (h1 : c ≠ '.')
    (h2 : c.isDigit = false) : parseMantissa? (c :: t) = none := by
  have hnd : notDot c = true := by simp [notDot, h1]
  unfold parseMantissa?
  simp only [List.takeWhile_cons, List.dropWhile_cons, hnd, if_true]
  cases hdw : t.dropWhile notDot with
  | nil => simp [List.all_cons, h2]
  | cons x rest => simp [List.all_cons, h2]

/-- A fragment whose first character is neither a digit, a dot nor an
exponent marker is not a number. -/
theorem parseNumber?_head_bad {c : Char} (t : List Char) (he : notExp c = true)
    (h1 : c ≠ '.') (h2 : c.isDigit = false) : parseNumber? (c :: t) = none := by
  unfold parseNumber?
  simp only [List.takeWhile_cons, List.dropWhile_cons, he, if_true]
  cases hdw : t.dropWhile notExp with
  | nil => simp [hdw, parseMantissa?_head_bad _ h1 h2]
  | cons x rest => simp [hdw, parseMantissa?_head_bad _ h1 h2]

/-- A fragment that starts with a quote character never parses as a float. -/
theorem parseFloat?_quote {c : Char} (t : List Char) (hc : c = '\'' ∨ c = '"') :
    parseFloat? (c :: t) = none := by
  have hnum : parseNumber? (c :: t) = none := by
    rcases hc with hc | hc <;> subst hc <;>
      exact parseNumber?_head_bad t (by decide) (by decide) (by decide)
  rcases hc with hc | hc <;> subst hc <;>
  · unfold parseFloat?
    simp [hnum, asciiLower]

/-- C4 (amended): the claim asserts the quote characters are checked
independently at the two ends of a fragment; in the code the quoted-string
branch of the Term Resolver requires the SAME quote character at both ends.
Amended statement: for every fragment whose trimmed form has length at least
2 and both starts and ends with `'`, or both starts and ends with `"` (such a
fragment is never a rollout call, boolean literal or parseable number), the
resolver returns the String consisting of the fragment with its first and
last characters stripped. -/
theorem c4_matched_quotes_strip (term : List Char) (ctx : Context) (key : String) (q : Char)
    (hq : q = '\'' ∨ q = '"')
    (hh : (trimChars term).head? = some q) (hl : (trimChars term).getLast? = some q)
    (hlen : 2 ≤ (trimChars term).length) :
    parse_term_as_value term ctx key =
      .ok (.Str (String.mk (((trimChars term).drop 1).dropLast))) := by
  obtain ⟨t2, hcons⟩ : ∃ t2, trimChars term = q :: t2 := by
    cases hc : trimChars term with
    | nil => rw [hc] at hh; exact absurd hh (by simp)
    | cons a t2 =>
      rw [hc] at hh
      simp only [List.head?_cons, Option.some.injEq] at hh
      exact ⟨t2, by rw [hh]⟩
  have hroll : ¬ (rolloutTok.isPrefixOf (trimChars term) = true ∧
      ((trimChars term).drop rolloutTok.length).getLast? = some ')') := by
    intro hcon
    have := hcon.1
    rw [hcons] at this
    rcases hq with h | h <;> subst h <;> simp [rolloutTok, List.isPrefixOf] at this
  have htrue : ¬ ((trimChars term).map asciiLower = ['t', 'r', 'u', 'e']) := by
    rw [hcons]
    rcases hq with h | h <;> subst h <;> simp [asciiLower]
  have hfalse : ¬ ((trimChars term).map asciiLower = ['f', 'a', 'l', 's', 'e']) := by
    rw [hcons]
    rcases hq with h | h <;> subst h <;> simp [asciiLower]
  have hfloat : parseFloat? (trimChars term) = none := by
    rw [hcons]
    exact parseFloat?_quote t2 hq
  have hquote : ((trimChars term).head? = some '"' ∧ (trimChars term).getLast? = some '"') ∨
      ((trimChars term).head? = some '\'' ∧ (trimChars term).getLast? = some '\'') := by
    rcases hq with h | h <;> subst h
    · exact Or.inr ⟨hh, hl⟩
    · exact Or.inl ⟨hh, hl⟩
  have hlen2 : ¬ ((trimChars term).length < 2) := by omega
  simp only [parse_term_as_value]
  rw [if_neg hroll, if_neg htrue, if_neg hfalse]
  simp only [hfloat]
  rw [if_pos hquote, if_neg hlen2]

/-- C1: the claim (and the source's own doc comment "The function never
panics") says `eval_flag` is a total pure function that falls open to the
flag's default even when every rule is malformed — in particular that a
condition consisting of a single quote character cannot make it abort.  The
code violates this: on the rule condition `'` the quoted-string branch of
`parse_term_as_value` evaluates `&t[1..t.len()-1]` with `t.len() = 1`, i.e.
the invalid slice bounds `1..0`, and panics (first conjunct; `.error ()` is
the modelled panic).  For rules failing with the recoverable `Err(())` the
claimed fail-open behaviour does hold (second conjunct). -/
theorem c1_eval_flag_total :
    eval_flag ⟨"f", [⟨['\''], true⟩], false⟩ emptyCtx = .error () ∧
    ∀ (flag : Flag) (ctx : Context),
      (∀ r ∈ flag.rules, eval_rule_expr flag.key r.cond ctx = .error .err) →
      eval_flag flag ctx = .ok ⟨flag.key, flag.default, none⟩ := by
  constructor
  · decide
  · intro flag ctx h
    simp only [eval_flag, eval_rules, evalRulesAux_all_err flag.key ctx flag.rules 0 h]

/-- Witness for C1: a flag whose only rule is the unknown identifier `x`
(which resolves to Null and therefore fails with `Err(())`) falls open to the
default. -/
theorem c1_witness :
    (∀ r ∈ ([⟨['x'], true⟩] : List Rule), eval_rule_expr "g" r.cond emptyCtx = .error .err) ∧
    eval_flag ⟨"g", [⟨['x'], true⟩], true⟩ emptyCtx = .ok ⟨"g", true, none⟩ :=
  ⟨by decide, c1_eval_flag_total.2 ⟨"g", [⟨['x'], true⟩], true⟩ emptyCtx (by decide)⟩

/-- C2: the claim says `eval_flag` iterates the rules strictly in order,
returning at the first success-true rule and skipping success-false rules and
ALL evaluation failures, reaching the default when no rule matches.  The code
violates the "any evaluation failure is skipped" part: a rule whose condition
is a single quote character panics and aborts the whole evaluation instead of
being skipped (first conjunct).  Under the proviso that no rule's condition
evaluation panics, the iteration is exactly the spec-side first-match loop
`specEval` — in particular first-match-wins (second conjunct). -/
theorem c2_first_match_wins :
    eval_flag ⟨"k", [⟨['\''], true⟩, ⟨['t', 'r', 'u', 'e'], true⟩], false⟩ emptyCtx =
      .error () ∧
    ∀ (flag : Flag) (ctx : Context),
      (∀ r ∈ flag.rules, eval_rule_expr flag.key r.cond ctx ≠ .error .panic) →
      eval_flag flag ctx = .ok (specEval flag ctx) :=
  ⟨by decide, eval_flag_eq_spec⟩

/-- Witness for C2: with a first rule evaluating to false and a second to
true, the second rule matches and its index is reported. -/
theorem c2_witness :
    (∀ r ∈ ([⟨"false".toList, true⟩, ⟨"true".toList, true⟩] : List Rule),
      eval_rule_expr "w" r.cond emptyCtx ≠ .error .panic) ∧
    eval_flag ⟨"w", [⟨"false".toList, true⟩, ⟨"true".toList, true⟩], false⟩ emptyCtx =
      .ok ⟨"w", true, some 1⟩ :=
  ⟨by decide,
    (c2_first_match_wins.2 ⟨"w", [⟨"false".toList, true⟩, ⟨"true".toList, true⟩], false⟩
      emptyCtx (by decide)).trans (by decide)⟩

/-- C3: `rollout` equals the spec's reference description — FNV-1a over the
UTF-8 bytes of `flagKey:userId` with offset basis `0x811c9dc5` and prime
`0x01000193` modulo 2³², bucket `hash / 2³²`, result `bucket < p`. -/
theorem c3_rollout_eq_reference :
    ∀ (flag_key user_id : String) (p : Fp),
      rollout flag_key user_id p = rolloutSpec flag_key user_id p := by
  intro flag_key user_id p
  unfold rollout rolloutSpec fnv1aHash
  norm_num

/-- C5 (counterexample): the claim says each quote character independently
toggles its own flag regardless of the other; on the text `"'"&&b` the code
(whose single-quote toggle is suppressed inside double quotes) finds `&&` at
index 3, while the independently-toggling scanner of the claim's wording
finds nothing. -/
theorem c5_counterexample :
    split_top_level ['"', '\'', '"', '&', '&', 'b'] andTok = some 3 ∧
    splitTopLevelIndep ['"', '\'', '"', '&', '&', 'b'] andTok = none := by
  decide

/-- C5 (amended): in the Separator Scanner a single quote toggles its flag
only while the double-quote flag is clear and a double quote toggles its flag
only while the single-quote flag is clear; the separator is reported exactly
at the first position where both flags are clear, the position's character is
not a quote, the parenthesis depth after the position's adjustment is zero
and the separator occurs — as captured by the state machine
`splitTopLevelSpec`. -/
theorem c5_conditional_quote_toggles (s sep : List Char) :
    split_top_level s sep = splitTopLevelSpec s sep :=
  split_top_level_eq_spec s sep

/-- C6: short-circuit evaluation.  With a top-level `||` at `idx`, if the
left fragment evaluates to true the whole expression is true — whatever the
right fragment is, malformed or not — and if the left evaluates to false the
result is exactly the right fragment's result.  With no top-level `||` and a
top-level `&&`: if the left evaluates to false the whole is false, else the
result is the right fragment's result. -/
theorem c6_short_circuit (fk : String) (ctx : Context) (s : List Char) (idx : ℕ) :
    (split_top_level s orTok = some idx →
      (eval_expr fk ctx (trimChars (s.take idx)) = .ok true →
        eval_expr fk ctx s = .ok true) ∧
      (eval_expr fk ctx (trimChars (s.take idx)) = .ok false →
        eval_expr fk ctx s = eval_expr fk ctx (trimChars (s.drop (idx + 2))))) ∧
    (split_top_level s orTok = none → split_top_level s andTok = some idx →
      (eval_expr fk ctx (trimChars (s.take idx)) = .ok false →
        eval_expr fk ctx s = .ok false) ∧
      (eval_expr fk ctx (trimChars (s.take idx)) = .ok true →
        eval_expr fk ctx s = eval_expr fk ctx (trimChars (s.drop (idx + 2))))) := by
  constructor
  · intro h
    constructor
    · intro hl
      rw [eval_expr_or_some fk ctx h, hl]
    · intro hl
      rw [eval_expr_or_some fk ctx h, hl]
  · intro hor h
    constructor
    · intro hl
      rw [eval_expr_and_some fk ctx hor h, hl]
    · intro hl
      rw [eval_expr_and_some fk ctx hor h, hl]

/-- Witness for C6: in `true || '` the right fragment is the panicking
single-quote fragment, yet the whole expression short-circuits to true. -/
theorem c6_witness :
    split_top_level "true || '".toList orTok = some 5 ∧
    eval_expr "f" emptyCtx (trimChars ("true || '".toList.take 5)) = .ok true ∧
    eval_expr "f" emptyCtx (trimChars ("true || '".toList.drop 7)) = .error .panic ∧
    eval_expr "f" emptyCtx "true || '".toList = .ok true :=
  ⟨by decide, by decide, by decide,
    ((c6_short_circuit "f" emptyCtx "true || '".toList 5).1 (by decide)).1 (by decide)⟩

/-- C7: a comparison between values whose types are not both String, not
both Number and not both Boolean (Null included) succeeds with `Ok(false)`
for every operator. -/
theorem c7_mismatched_compare (l r : Value) (op : List Char)
    (hs : (isStr l && isStr r) = false) (hn : (isNum l && isNum r) = false)
    (hb : (isBool l && isBool r) = false) :
    eval_comparison l op r = .ok false := by
  cases l <;> cases r <;> simp_all [isStr, isNum, isBool, eval_comparison]

/-- Witness for C7: `compare(String("a"), "==", Number(1)) = Ok(false)`. -/
theorem c7_witness :
    (isStr (Value.Str "a") && isStr (Value.Num (.finite 1))) = false ∧
    (isNum (Value.Str "a") && isNum (Value.Num (.finite 1))) = false ∧
    (isBool (Value.Str "a") && isBool (Value.Num (.finite 1))) = false ∧
    eval_comparison (Value.Str "a") ['=', '='] (Value.Num (.finite 1)) = .ok false :=
  ⟨rfl, rfl, rfl, c7_mismatched_compare (Value.Str "a") (Value.Num (.finite 1)) ['=', '='] rfl rfl rfl⟩

/-- C8: rollout is monotone in the probability — for a fixed flag key and
user id, if `p1 <= p2` (IEEE comparison) and the rollout fires at `p1`, it
fires at `p2`. -/
theorem c8_rollout_monotone (flag_key user_id : String) (p1 p2 : Fp)
    (hle : Fp.le p1 p2 = true) (h1 : rollout flag_key user_id p1 = true) :
    rollout flag_key user_id p2 = true := by
  simp only [rollout] at h1 ⊢
  exact Fp.lt_le_trans h1 hle

/-- Witness for C8: the bucket of `paywall:u20` (hash 359950222, bucket
≈ 0.0838) lies below 1/2 and hence below 1. -/
theorem c8_witness :
    Fp.le (.finite (1 / 2)) (.finite 1) = true ∧
    rollout "paywall" "u20" (.finite (1 / 2)) = true ∧
    rollout "paywall" "u20" (.finite 1) = true := by
  have hH : fnv1aHash (utf8Bytes ("paywall" ++ ":" ++ "u20").toList) = 359950222 := by
    decide
  have hroll : rollout "paywall" "u20" (.finite (1 / 2)) = true := by
    simp only [rollout, hH, Fp.lt]
    rw [decide_eq_true_eq]
    norm_num
  have hle : Fp.le (.finite (1 / 2)) (.finite 1) = true := by
    simp only [Fp.le]
    rw [decide_eq_true_eq]
    norm_num
  exact ⟨hle, hroll,
    c8_rollout_monotone "paywall" "u20" (.finite (1 / 2)) (.finite 1) hle hroll⟩

/-- C9: in the membership evaluator the left operand's type check comes
first: for every non-String left value the result is `Ok(false)`, whatever
the right-hand fragment — even one that is not a parenthesized list. -/
theorem c9_nonstring_membership (l : Value) (rhs : List Char)
    (h : isStr l = false) : eval_in l rhs = .ok false := by
  cases l <;> simp_all [isStr, eval_in]

/-- Witness for C9: a Number on the left of `in` with a right-hand side that
is not a parenthesized list still yields `Ok(false)`. -/
theorem c9_witness :
    isStr (Value.Num (.finite 1)) = false ∧
    eval_in (Value.Num (.finite 1)) "not-a-list".toList = .ok false :=
  ⟨rfl, c9_nonstring_membership (Value.Num (.finite 1)) "not-a-list".toList rfl⟩

/-- C10: the Separator Scanner's parenthesis counter is signed and an
unmatched `)` outside quotes drives it negative: on `a) && b` the depth after
two characters is −1 and the search for `&&` reports nothing (first
conjunct); in general an index is reported only where both quote flags are
clear, the running depth (after the index's own parenthesis adjustment) is
exactly zero and the separator occurs there (second conjunct). -/
theorem c10_negative_depth :
    (split_top_level "a) && b".toList andTok = none ∧
      (scanStateAt "a) && b".toList 2).depth = -1) ∧
    ∀ (s sep : List Char) (i : ℕ), split_top_level s sep = some i →
      (scanStateAt s i).sq = false ∧ (scanStateAt s i).dq = false ∧
        (scanStateAt s (i + 1)).depth = 0 ∧ sep.isPrefixOf (s.drop i) = true :=
  ⟨⟨by decide, by decide⟩, fun _ _ _ h => split_some_scan h⟩

/-- Witness for C10: `a && b` reports `&&` at index 2, where the flags are
clear, the depth is zero and the separator occurs. -/
theorem c10_witness :
    split_top_level "a && b".toList andTok = some 2 ∧
    ((scanStateAt "a && b".toList 2).sq = false ∧
      (scanStateAt "a && b".toList 2).dq = false ∧
      (scanStateAt "a && b".toList (2 + 1)).depth = 0 ∧
      andTok.isPrefixOf ("a && b".toList.drop 2) = true) :=
  ⟨by decide, c10_negative_depth.2 "a && b".toList andTok 2 (by decide)⟩

/-- Witness for C4: `'ab'` resolves to the String `ab`. -/
theorem c4_witness :
    (trimChars "'ab'".toList).head? = some '\'' ∧
    (trimChars "'ab'".toList).getLast? = some '\'' ∧
    2 ≤ (trimChars "'ab'".toList).length ∧
    parse_term_as_value "'ab'".toList emptyCtx "k" = .ok (.Str "ab") :=
  ⟨by decide, by decide, by decide,
    (c4_matched_quotes_strip "'ab'".toList emptyCtx "k" '\'' (Or.inl rfl) (by decide)
      (by decide) (by decide)).trans (by decide)⟩

/-- C4 (counterexample): the fragment `'a"` is trimmed, has length 3, starts
with one quote character and ends with the other, and is neither a rollout
call nor a boolean literal nor a parseable number — yet the Term Resolver
returns Null (an unknown-identifier lookup), not the String `a` that the
claim's independent-ends reading prescribes. -/
theorem c4_counterexample :
    trimChars ['\'', 'a', '"'] = ['\'', 'a', '"'] ∧
    2 ≤ (['\'', 'a', '"'] : List Char).length ∧
    (['\'', 'a', '"'] : List Char).head? = some '\'' ∧
    (['\'', 'a', '"'] : List Char).getLast? = some '"' ∧
    rolloutTok.isPrefixOf ['\'', 'a', '"'] = false ∧
    (['\'', 'a', '"'] : List Char).map asciiLower ≠ ['t', 'r', 'u', 'e'] ∧
    (['\'', 'a', '"'] : List Char).map asciiLower ≠ ['f', 'a', 'l', 's', 'e'] ∧
    parseFloat? ['\'', 'a', '"'] = none ∧
    parse_term_as_value ['\'', 'a', '"'] emptyCtx "f" ≠ .ok (.Str "a") ∧
    parse_term_as_value ['\'', 'a', '"'] emptyCtx "f" = .ok .Null := by
  decide

end FFE
